import Mathlib

/-!
Formal model of the UDP sender variants of this repository (stop-and-wait,
fixed sliding window, TCP Reno).  The Python sources are shallowly embedded:
bytes are natural numbers below 256, Python floats (wall-clock times and the
Reno congestion variables) are modelled as exact rationals, and the
transmission loop is modelled as a small-step transition system whose inputs
(poll results, acknowledgment datagrams, clock readings) are parameters.

Source files (identical logic is noted once per definition):
  - sender_reno_Jashan_921273042_Rafi_[924030363].py               ("reno")
  - sender_fixed_sliding_window_Jashan_921273042_Rafi_[924030363].py ("fixed")
  - sender_stop_and_wait_Jashan_921273042_Rafi_[924030363].py      ("snw")
-/

set_option maxRecDepth 8000

/-! ## Configuration constants (reno lines 17-25, fixed lines 15-20, snw lines 10-12) -/

def PACKET_SIZE : Nat := 1024

def SEQ_ID_SIZE : Nat := 4

/-- Payload capacity of one packet; MSG_SIZE in reno, MESSAGE_SIZE in fixed,
message_size in snw.  Equals 1020. -/
def MSG_SIZE : Nat := PACKET_SIZE - SEQ_ID_SIZE

/-- Retransmission timeout of the reno and fixed senders, 0.5 seconds. -/
def TIMEOUT : ℚ := 1/2

/-- Fixed sliding-window size in packets (fixed line 18). -/
def WINDOW_SIZE : Nat := 100

/-- Initial congestion window of the reno sender (reno line 24). -/
def CWND0 : ℚ := 1

/-- Initial slow-start threshold of the reno sender (reno line 25). -/
def SSTHRESH0 : ℚ := 64

/-! ## Segment codec

Python's fixed-width signed big-endian integer conversions, and the lenient
UTF-8 text decoding used for acknowledgment bodies. -/

/-- Python int.to_bytes(n, 4, signed=True, byteorder="big"): the four-byte
big-endian two's-complement encoding; defined via the representative of
n mod 2^32 (CPython raises OverflowError outside the signed 32-bit range;
all theorems hypothesise that range). -/
def intToBytes4 (n : Int) : List Nat :=
  [(n % 2 ^ 32).toNat / 2 ^ 24 % 256, (n % 2 ^ 32).toNat / 2 ^ 16 % 256,
   (n % 2 ^ 32).toNat / 2 ^ 8 % 256, (n % 2 ^ 32).toNat % 256]

/-- Python int.from_bytes(bs, signed=True, byteorder="big"): big-endian value
of the byte string, interpreted in two's complement at its own width. -/
def intFromBytesSigned (bs : List Nat) : Int :=
  if 2 * bs.foldl (fun a b => a * 256 + b) 0 ≥ 256 ^ bs.length then
    (bs.foldl (fun a b => a * 256 + b) 0 : Int) - 256 ^ bs.length
  else
    (bs.foldl (fun a b => a * 256 + b) 0 : Int)

/-- Is b a UTF-8 continuation byte (0x80-0xbf)? -/
def utf8Cont (b : Nat) : Bool := 0x80 ≤ b && b ≤ 0xbf

/-- Valid range of the first continuation byte after lead byte b, following
RFC 3629 (this is what CPython's strict decoder accepts: no overlong forms,
no surrogates, nothing above U+10FFFF). -/
def utf8Cont2 (b b2 : Nat) : Bool :=
  if b = 0xe0 then 0xa0 ≤ b2 && b2 ≤ 0xbf
  else if b = 0xed then 0x80 ≤ b2 && b2 ≤ 0x9f
  else if b = 0xf0 then 0x90 ≤ b2 && b2 ≤ 0xbf
  else if b = 0xf4 then 0x80 ≤ b2 && b2 ≤ 0x8f
  else utf8Cont b2

/-- Modelled from the spec: the body decoding "tolerates invalid encoding by
substituting/ignoring malformed byte sequences rather than failing".  This
models CPython's bytes.decode("utf-8", errors="ignore") (an external library
primitive, not code of this repository): well-formed UTF-8 sequences decode
to their scalar values, and each maximal invalid subpart is skipped.  The
function is total: decoding never fails. -/
def utf8DecodeIgnore : List Nat → List Char
  | [] => []
  | b :: bs =>
    if b < 0x80 then Char.ofNat b :: utf8DecodeIgnore bs
    else if 0xc2 ≤ b && b ≤ 0xdf then
      match bs with
      | [] => []
      | b2 :: bs2 =>
        if utf8Cont b2 then
          Char.ofNat ((b - 0xc0) * 0x40 + (b2 - 0x80)) :: utf8DecodeIgnore bs2
        else utf8DecodeIgnore (b2 :: bs2)
    else if 0xe0 ≤ b && b ≤ 0xef then
      match bs with
      | [] => []
      | [b2] => if utf8Cont2 b b2 then [] else utf8DecodeIgnore [b2]
      | b2 :: b3 :: bs3 =>
        if utf8Cont2 b b2 then
          if utf8Cont b3 then
            Char.ofNat (((b - 0xe0) * 0x40 + (b2 - 0x80)) * 0x40 + (b3 - 0x80)) ::
              utf8DecodeIgnore bs3
          else utf8DecodeIgnore (b3 :: bs3)
        else utf8DecodeIgnore (b2 :: b3 :: bs3)
    else if 0xf0 ≤ b && b ≤ 0xf4 then
      match bs with
      | [] => []
      | [b2] => if utf8Cont2 b b2 then [] else utf8DecodeIgnore [b2]
      | [b2, b3] =>
        if utf8Cont2 b b2 then
          if utf8Cont b3 then [] else utf8DecodeIgnore [b3]
        else utf8DecodeIgnore [b2, b3]
      | b2 :: b3 :: b4 :: bs4 =>
        if utf8Cont2 b b2 then
          if utf8Cont b3 then
            if utf8Cont b4 then
              Char.ofNat ((((b - 0xf0) * 0x40 + (b2 - 0x80)) * 0x40 + (b3 - 0x80)) * 0x40
                  + (b4 - 0x80)) :: utf8DecodeIgnore bs4
            else utf8DecodeIgnore (b4 :: bs4)
          else utf8DecodeIgnore (b3 :: b4 :: bs4)
        else utf8DecodeIgnore (b2 :: b3 :: b4 :: bs4)
    else utf8DecodeIgnore bs

/-- reno lines 28-29: seq-id header followed by the payload. -/
def make_pkt (seq : Int) (payload : List Nat) : List Nat :=
  intToBytes4 seq ++ payload

/-- reno lines 32-35: split off the 4-byte header as a signed integer, decode
the rest leniently as UTF-8 text. -/
def read_ack (buf : List Nat) : Int × String :=
  (intFromBytesSigned (buf.take 4), String.mk (utf8DecodeIgnore (buf.drop 4)))

/-- fixed lines 23-24 (textually the same code as make_pkt). -/
def create_packet (seq_id : Int) (data : List Nat) : List Nat :=
  intToBytes4 seq_id ++ data

/-- fixed lines 27-30 (textually the same code as read_ack). -/
def parse_ack (data : List Nat) : Int × String :=
  (intFromBytesSigned (data.take 4), String.mk (utf8DecodeIgnore (data.drop 4)))

theorem intToBytes4_roundtrip (n : Int) (h1 : -(2 ^ 31) ≤ n) (h2 : n < 2 ^ 31) :
    intFromBytesSigned (intToBytes4 n) = n := by
  have hm : (0 : Int) ≤ n % 2 ^ 32 := Int.emod_nonneg n (by norm_num)
  have hm2 : n % 2 ^ 32 < 2 ^ 32 := Int.emod_lt_of_pos n (by norm_num)
  unfold intToBytes4 intFromBytesSigned
  simp only [List.foldl, List.length_cons, List.length_nil]
  split <;> omega

/-! ## Byte-stream segmenter -/

/-- reno lines 43-51 / fixed lines 38-46: read the byte source in chunks of
at most MSG_SIZE bytes, keyed by cumulative byte offset.  The Python dict
(insertion ordered, offsets inserted in increasing order) is modelled as the
association list produced in the same order. -/
def segAux (off : Nat) (data : List Nat) : List (Nat × List Nat) :=
  if data = [] then []
  else (off, data.take MSG_SIZE) ::
    segAux (off + (data.take MSG_SIZE).length) (data.drop MSG_SIZE)
termination_by data.length
decreasing_by
  have : data.length ≠ 0 := by simpa using ‹¬ data = []›
  simp [List.length_drop, MSG_SIZE, PACKET_SIZE, SEQ_ID_SIZE]
  omega

/-- The packets dict of run_sender, as an offset-ordered association list. -/
def segmentize (data : List Nat) : List (Nat × List Nat) := segAux 0 data

/-- seqs = sorted(packets.keys()) (reno line 54 / fixed line 49): the offsets
in insertion order, which is already increasing. -/
def segOffsets (data : List Nat) : List Nat := (segmentize data).map Prod.fst

/-- The chunk stored at offset s: at every boundary offset this equals
packets[s] (theorem segmentize_mem_eq below); the machine uses the slice form
so that segment lengths are defined at every offset. -/
def chunkAt (data : List Nat) (s : Nat) : List Nat := (data.drop s).take MSG_SIZE

/-- Offset chaining of a segment list: starting from o, each segment sits
exactly at the end of the previous one, is non-empty and holds at most
MSG_SIZE bytes. -/
def wellChained (o : Nat) : List (Nat × List Nat) → Bool
  | [] => true
  | (s, p) :: rest =>
    decide (s = o) && decide (p ≠ []) && decide (p.length ≤ MSG_SIZE) &&
      wellChained (o + p.length) rest

/-! ## Transmission controller -/

/-- Which sendto call produced a data datagram. -/
inductive SKind where
  | fresh
  | fastRetx
  | timeoutRetx
  deriving DecidableEq, Repr

/-- One data transmission: kind, byte offset, clock reading at the send. -/
structure SendEv where
  kind : SKind
  off : Nat
  time : ℚ
  deriving DecidableEq, Repr

/-- Mutable loop state of run_sender (reno lines 59-72 / fixed lines 57-65).
cwnd, ssthresh and dup_acks exist only in the reno variant and are inert in
the fixed variant.  log is a history variable: the ordered list of all data
transmissions performed so far (every sock.sendto of a data packet); it
influences no control decision. -/
structure SState where
  base : Nat
  next_seq : Nat
  cwnd : ℚ
  ssthresh : ℚ
  dup_acks : Nat
  last_progress : ℚ
  firstSend : List (Nat × ℚ)
  delays : List ℚ
  log : List SendEv
  deriving DecidableEq, Repr

/-- State right before entering the transfer loop; t0 is the clock reading
stored into last_progress (reno line 70 / fixed line 65). -/
def initState (t0 : ℚ) : SState :=
  { base := 0, next_seq := 0, cwnd := CWND0, ssthresh := SSTHRESH0,
    dup_acks := 0, last_progress := t0, firstSend := [], delays := [], log := [] }

/-- Inner send-while (reno lines 78-84 / fixed lines 71-78): while data
remains and the window is open, transmit the segment at next_seq, record a
first-send time for it only if none is recorded, and advance next_seq by the
segment's length.  The single clock reading now abstracts the per-send
time.time() calls of one pass. -/
def sendLoop (data : List Nat) (winEnd : Nat) (now : ℚ) (st : SState) : SState :=
  if st.next_seq < data.length ∧ st.next_seq < winEnd then
    sendLoop data winEnd now
      { st with
        log := st.log ++ [⟨SKind.fresh, st.next_seq, now⟩],
        firstSend :=
          if (st.firstSend.lookup st.next_seq).isSome then st.firstSend
          else (st.next_seq, now) :: st.firstSend,
        next_seq := st.next_seq + (chunkAt data st.next_seq).length }
  else st
termination_by data.length - st.next_seq
decreasing_by
  simp [chunkAt, List.length_take, List.length_drop, MSG_SIZE, PACKET_SIZE, SEQ_ID_SIZE]
  omega

/-- Send phase of one loop iteration; win_end is computed once per iteration
(reno line 76: base + int(cwnd) * MSG_SIZE; fixed line 70:
base + WINDOW_SIZE * MESSAGE_SIZE).  Python's int() truncates toward zero,
which on the always-positive cwnd is the floor. -/
def sendPhase (isReno : Bool) (data : List Nat) (now : ℚ) (st : SState) : SState :=
  sendLoop data
    (st.base + (if isReno then st.cwnd.floor.toNat else WINDOW_SIZE) * MSG_SIZE)
    now st

/-- Delay-finalisation walk over the sorted offsets (reno lines 98-107 /
fixed lines 91-100): skip offsets below the old base; for each segment whose
end is covered by the acknowledgment, append now - t0 if a send record
exists and drop the record; stop at the first uncovered offset. -/
def ackWalk (data : List Nat) (ack : Int) (oldBase : Nat) (now : ℚ) :
    List Nat → List (Nat × ℚ) × List ℚ → List (Nat × ℚ) × List ℚ
  | [], acc => acc
  | s :: rest, (fs, ds) =>
    if s < oldBase then ackWalk data ack oldBase now rest (fs, ds)
    else if ((s + (chunkAt data s).length : Nat) : Int) ≤ ack then
      match fs.lookup s with
      | some t0 =>
        ackWalk data ack oldBase now rest
          (fs.eraseP (fun p => p.1 == s), ds ++ [now - t0])
      | none => ackWalk data ack oldBase now rest (fs, ds)
    else (fs, ds)

/-- Acknowledgment processing for one received datagram with decoded header a
(reno lines 93-127 / fixed lines 86-103).  New cumulative progress finalises
delays, advances base, resets the progress clock and (reno) resets dup_acks
and grows cwnd.  A duplicate at base (reno only) increments dup_acks; the
third performs fast retransmit: ssthresh = max(cwnd/2, 2),
cwnd = ssthresh + 3, resend the segment at base.  Anything else is ignored. -/
def ackStep (isReno : Bool) (data : List Nat) (a : Int) (now : ℚ) (st : SState) : SState :=
  if a > (st.base : Int) then
    let w := ackWalk data a st.base now (segOffsets data) (st.firstSend, st.delays)
    let st1 := { st with
      firstSend := w.1, delays := w.2,
      base := a.toNat, last_progress := now,
      dup_acks := if isReno then 0 else st.dup_acks }
    if isReno then
      if st.cwnd < st.ssthresh then { st1 with cwnd := st.cwnd + 1 }
      else { st1 with cwnd := st.cwnd + 1 / st.cwnd }
    else st1
  else if isReno && a == (st.base : Int) then
    if st.dup_acks + 1 = 3 then
      { st with
        dup_acks := st.dup_acks + 1,
        ssthresh := max (st.cwnd / 2) 2,
        cwnd := max (st.cwnd / 2) 2 + 3,
        log := if st.base < data.length then
                 st.log ++ [⟨SKind.fastRetx, st.base, now⟩] else st.log }
    else { st with dup_acks := st.dup_acks + 1 }
  else st

/-- Timeout check at the bottom of each loop iteration (reno lines 133-141 /
fixed lines 109-113): if no progress for more than TIMEOUT, retransmit the
segment at base; the reno variant additionally collapses to slow start
(ssthresh = max(cwnd/2, 2), cwnd = 1, dup_acks = 0).  Reno resets
last_progress unconditionally (line 141); fixed only inside the
base < total guard (line 113). -/
def timeoutStep (isReno : Bool) (data : List Nat) (now : ℚ) (st : SState) : SState :=
  if now - st.last_progress > TIMEOUT then
    if isReno then
      { st with
        ssthresh := max (st.cwnd / 2) 2, cwnd := 1, dup_acks := 0,
        log := if st.base < data.length then
                 st.log ++ [⟨SKind.timeoutRetx, st.base, now⟩] else st.log,
        last_progress := now }
    else if st.base < data.length then
      { st with
        log := st.log ++ [⟨SKind.timeoutRetx, st.base, now⟩],
        last_progress := now }
    else st
  else st

/-- One phase of the transfer loop (reno lines 74-141 / fixed lines 68-113).
The loop interleaves the three phases as (send; at most one ack; timeout
check) repeated while base < total_bytes; clock readings and received
acknowledgment headers are free parameters, so every run of the Python loop
projects to a sequence of these steps. -/
inductive Step (isReno : Bool) (data : List Nat) : SState → SState → Prop where
  | send (now : ℚ) (st : SState) (h : st.base < data.length) :
      Step isReno data st (sendPhase isReno data now st)
  | ack (a : Int) (now : ℚ) (st : SState) (h : st.base < data.length) :
      Step isReno data st (ackStep isReno data a now st)
  | timeout (now : ℚ) (st : SState) (h : st.base < data.length) :
      Step isReno data st (timeoutStep isReno data now st)

/-- The transfer-loop steps under the spec's collaborator contract: the
receiver only ever acknowledges the highest contiguously received offset, so
a received acknowledgment never exceeds the bytes sent so far (a <=
next_seq). -/
inductive BStep (isReno : Bool) (data : List Nat) : SState → SState → Prop where
  | send (now : ℚ) (st : SState) (h : st.base < data.length) :
      BStep isReno data st (sendPhase isReno data now st)
  | ack (a : Int) (now : ℚ) (st : SState) (h : st.base < data.length)
      (hb : a ≤ (st.next_seq : Int)) :
      BStep isReno data st (ackStep isReno data a now st)
  | timeout (now : ℚ) (st : SState) (h : st.base < data.length) :
      BStep isReno data st (timeoutStep isReno data now st)

/-- The transfer-loop steps restricted to runs in which every retransmission
happens at an offset that was already transmitted: a fast retransmit (third
duplicate) or a firing timeout may only occur when base < next_seq.  In the
Python loop this can fail only in one timing race: a timeout firing in the
same iteration as, and right after, the acknowledgment that advanced base to
next_seq (see the counterexample for claim C4). -/
inductive RStep (isReno : Bool) (data : List Nat) : SState → SState → Prop where
  | send (now : ℚ) (st : SState) (h : st.base < data.length) :
      RStep isReno data st (sendPhase isReno data now st)
  | ack (a : Int) (now : ℚ) (st : SState) (h : st.base < data.length)
      (hfr : a = (st.base : Int) → st.dup_acks = 2 → st.base < st.next_seq) :
      RStep isReno data st (ackStep isReno data a now st)
  | timeout (now : ℚ) (st : SState) (h : st.base < data.length)
      (hr : now - st.last_progress > TIMEOUT → st.base < st.next_seq) :
      RStep isReno data st (timeoutStep isReno data now st)

/-! ## Session closer -/

/-- The bytes of b"fin". -/
def finBytes : List Nat := [0x66, 0x69, 0x6e]

/-- The bytes of b"==FINACK==". -/
def finackBytes : List Nat :=
  [0x3d, 0x3d, 0x46, 0x49, 0x4e, 0x41, 0x43, 0x4b, 0x3d, 0x3d]

/-- EOF / fin loop of the reno and fixed closers (reno lines 143-155 / fixed
lines 119-131): up to 10 attempts; each attempt sends an empty packet with
seq_id = total_bytes, then polls once with a 0.5 s wait; a received datagram
whose decoded text equals "fin" ends the loop.  resp supplies the successive
poll outcomes (none = timeout or exception, some buf = received datagram).
Returns the list of datagrams the loop sends and the got_fin flag. -/
def closeLoop (total : Int) : Nat → List (Option (List Nat)) → List (List Nat) × Bool
  | 0, _ => ([], false)
  | n + 1, resp =>
    match resp with
    | [] =>
      let r := closeLoop total n []
      (make_pkt total [] :: r.1, r.2)
    | some buf :: rs =>
      if (read_ack buf).2 = "fin" then ([make_pkt total []], true)
      else
        let r := closeLoop total n rs
        (make_pkt total [] :: r.1, r.2)
    | none :: rs =>
      let r := closeLoop total n rs
      (make_pkt total [] :: r.1, r.2)

/-- The whole session closer of the reno and fixed senders (reno lines
143-158 / fixed lines 119-133): the bounded EOF/fin loop, then the FINACK
datagram sent unconditionally.  Returns every datagram it sends, in order. -/
def sessionCloser (total : Int) (resp : List (Option (List Nat))) : List (List Nat) :=
  (closeLoop total 10 resp).1 ++ [make_pkt total finackBytes]

/-- snw lines 75-84: the stop-and-wait EOF loop has no retry bound; it
repeatedly sends the EOF packet and blocks with a 0.1 s timeout until an
acknowledgment with ack_id >= seq_id arrives.  resp supplies successive
recvfrom outcomes, one per iteration; the result is the number of EOF
datagrams sent across those iterations, and whether the loop has terminated
(false = still running when the supplied outcomes run out). -/
def snwEofLoop (seqId : Int) : List (Option (List Nat)) → Nat × Bool
  | [] => (0, false)
  | none :: rs =>
    let r := snwEofLoop seqId rs
    (r.1 + 1, r.2)
  | some buf :: rs =>
    if intFromBytesSigned (buf.take 4) ≥ seqId then (1, true)
    else
      let r := snwEofLoop seqId rs
      (r.1 + 1, r.2)

/-- snw lines 87-94: block until a datagram whose bytes after the 4-byte
header equal b"fin" arrives; no retry bound.  Returns whether the wait has
terminated within the supplied recvfrom outcomes. -/
def snwFinWait : List (Option (List Nat)) → Bool
  | [] => false
  | none :: rs => snwFinWait rs
  | some buf :: rs => if buf.drop 4 = finBytes then true else snwFinWait rs

/-- snw lines 75-98: the stop-and-wait closing sequence.  The FINACK
datagram (built at line 97 with seq_id 0) is sent only after the EOF loop
and the fin wait have both terminated; the result is none while either loop
is still running (no FINACK sent), or the sent FINACK datagram. -/
def snwCloser (seqId : Int) (respE respF : List (Option (List Nat))) : Option (List Nat) :=
  if (snwEofLoop seqId respE).2 && snwFinWait respF then
    some (intToBytes4 0 ++ finackBytes)
  else none

/-! ## Metrics -/

/-- reno lines 161-165: the per-run metrics (throughput, avg_delay, metric).
The duration is tEnd - start where tEnd is the time.time() reading of line
161, taken after the closing handshake of lines 143-158. -/
def renoFinish (total : Nat) (start tEnd : ℚ) (delays : List ℚ) : ℚ × ℚ × ℚ :=
  let dur := tEnd - start
  let throughput := if dur > 0 then (total : ℚ) / dur else 0
  let avg_delay := if delays ≠ [] then delays.sum / (delays.length : ℚ) else 0
  let metric := if avg_delay > 0 then 0.3 * (throughput / 1000) + 0.7 / avg_delay else 0
  (throughput, avg_delay, metric)

/-- fixed lines 137-142: the same formulas, except that the duration ends at
ack_all_time, the clock reading taken when the transfer loop exits (line
116), before the closing handshake of lines 119-133. -/
def fixedFinish (total : Nat) (start ackAllTime : ℚ) (delays : List ℚ) : ℚ × ℚ × ℚ :=
  let duration := ackAllTime - start
  let throughput := if duration > 0 then (total : ℚ) / duration else 0
  let avg_delay := if delays ≠ [] then delays.sum / (delays.length : ℚ) else 0
  let metric := if avg_delay > 0 then 0.3 * (throughput / 1000) + 0.7 / avg_delay else 0
  (throughput, avg_delay, metric)

/-- snw lines 100-105: duration from start_time to end_time, where end_time
is read at line 100, after the whole closing handshake (lines 72-98). -/
def snwFinish (bytes_sent : Nat) (start endTime : ℚ) (delays : List ℚ) : ℚ × ℚ × ℚ :=
  let elapsed := endTime - start
  let throughput := if elapsed > 0 then (bytes_sent : ℚ) / elapsed else 0
  let avg_delay := if delays ≠ [] then delays.sum / (delays.length : ℚ) else 0
  let metric := if avg_delay > 0 then 0.3 * (throughput / 1000) + 0.7 * (1 / avg_delay) else 0
  (throughput, avg_delay, metric)

/-- The tail of a reno run with the wall clock made explicit: the transfer
loop exits (base = total_bytes) at time tReach, the closing handshake takes
hs further seconds, so line 161 reads the clock at tReach + hs. -/
def renoTail (total : Nat) (start tReach hs : ℚ) (delays : List ℚ) : ℚ × ℚ × ℚ :=
  renoFinish total start (tReach + hs) delays

/-- The tail of a snw run: end_time (line 100) reads tReach + hs. -/
def snwTail (total : Nat) (start tReach hs : ℚ) (delays : List ℚ) : ℚ × ℚ × ℚ :=
  snwFinish total start (tReach + hs) delays

/-- The tail of a fixed-window run: ack_all_time (line 116) is read when the
transfer loop exits, so it equals tReach no matter how long the closing
handshake (hs) takes. -/
def fixedTail (total : Nat) (start tReach hs : ℚ) (delays : List ℚ) : ℚ × ℚ × ℚ :=
  fixedFinish total start tReach delays

/-- Stated from the spec's words (Metrics output), for comparison with the
code: bytes per second of wall-clock transfer duration, measured from first
data transmission to the moment base reaches total_bytes, excluding the
closing handshake. -/
def specThroughput (total : Nat) (start tReach : ℚ) : ℚ :=
  if tReach - start > 0 then (total : ℚ) / (tReach - start) else 0

/-! ## Derived log observations and concrete runs -/

/-- Number of fast retransmissions in a transmission log. -/
def countFR (log : List SendEv) : Nat :=
  (log.filter (fun e => e.kind == SKind.fastRetx)).length

/-- The clock reading of the first-ever transmission of offset s in a log
(logs are in chronological order). -/
def firstLogTime (log : List SendEv) (s : Nat) : Option ℚ :=
  ((log.filter (fun e => e.off == s)).head?).map SendEv.time

/-- Processing of a run of duplicate acknowledgments at the current base in
the reno variant: one ackStep per clock reading in ts. -/
def dupRun (data : List Nat) (ts : List ℚ) (st : SState) : SState :=
  ts.foldl (fun s t => ackStep true data (s.base : Int) t s) st

/-- A three-byte source: one segment, offset 0, length 3. -/
def data3 : List Nat := [1, 2, 3]

/-- A 1021-byte source: segments at offsets 0 (length 1020) and 1020
(length 1). -/
def dataBig : List Nat := List.replicate 1021 0

/-- Final state of the counterexample run for claim C2: send the only
segment, receive three duplicate acknowledgments at base 0 (fast
retransmit), suffer a timeout (which resets dup_acks), then receive three
more duplicates at the same base 0 (second fast retransmit). -/
def c2runEnd : SState :=
  { base := 0, next_seq := 3, cwnd := 5, ssthresh := 2, dup_acks := 3,
    last_progress := 1, firstSend := [(0, 0)], delays := [],
    log := [⟨SKind.fresh, 0, 0⟩, ⟨SKind.fastRetx, 0, 0⟩,
            ⟨SKind.timeoutRetx, 0, 1⟩, ⟨SKind.fastRetx, 0, 2⟩] }

/-- Final state of the counterexample run for claim C4 on dataBig: iteration
1 sends segment 0 at time 0 and processes the acknowledgment 1020 (base =
next_seq = 1020); more than half a second elapses inside the same iteration,
so the timeout check fires at time 1 and retransmits segment 1020 - its
first-ever transmission, with no send record made.  Iteration 2 then sends
segment 1020 "fresh" at time 2 and records first-send time 2 for it. -/
def c4runEnd : SState :=
  { base := 1020, next_seq := 1021, cwnd := 1, ssthresh := 2, dup_acks := 0,
    last_progress := 1, firstSend := [(1020, 2)], delays := [0],
    log := [⟨SKind.fresh, 0, 0⟩, ⟨SKind.timeoutRetx, 1020, 1⟩,
            ⟨SKind.fresh, 1020, 2⟩] }

/-! ## General lemmas -/

theorem MSG_SIZE_eq : MSG_SIZE = 1020 := rfl

theorem chunkAt_length (data : List Nat) (s : Nat) :
    (chunkAt data s).length = min MSG_SIZE (data.length - s) := by
  simp [chunkAt]

theorem lookup_mem {β : Type} {l : List (Nat × β)} {a : Nat} {b : β}
    (h : l.lookup a = some b) : (a, b) ∈ l := by
  induction l with
  | nil => simp [List.lookup] at h
  | cons p t ih =>
    rcases p with ⟨k, v⟩
    rw [List.lookup] at h
    cases hk : (a == k) with
    | true =>
      rw [hk] at h
      simp only [Option.some.injEq] at h
      have hak : a = k := by simpa using hk
      subst hak; subst h
      exact List.mem_cons_self _ _
    | false =>
      rw [hk] at h
      exact List.mem_cons_of_mem _ (ih h)

theorem firstLogTime_append_of_some (log l' : List SendEv) (s : Nat) (t : ℚ)
    (h : firstLogTime log s = some t) : firstLogTime (log ++ l') s = some t := by
  unfold firstLogTime at h ⊢
  rw [List.filter_append]
  cases hf : log.filter (fun e => e.off == s) with
  | nil => rw [hf] at h; simp at h
  | cons e rest => rw [hf] at h; simpa using h

theorem firstLogTime_append_fresh (log : List SendEv) (k : SKind) (s : Nat) (t : ℚ)
    (h : ∀ e ∈ log, e.off ≠ s) : firstLogTime (log ++ [⟨k, s, t⟩]) s = some t := by
  unfold firstLogTime
  rw [List.filter_append]
  have hnil : log.filter (fun e => e.off == s) = [] := by
    rw [List.filter_eq_nil_iff]
    intro e he
    simpa using h e he
  rw [hnil]
  simp

/-! ## Segmenter lemmas -/

theorem segAux_wellChained (off : Nat) (data : List Nat) :
    wellChained off (segAux off data) = true := by
  induction off, data using segAux.induct with
  | case1 off => rw [segAux]; rfl
  | case2 off data hnil ih =>
    rw [segAux, if_neg hnil, wellChained]
    have hne : data.take MSG_SIZE ≠ [] := by
      simp [List.take_eq_nil_iff, MSG_SIZE, PACKET_SIZE, SEQ_ID_SIZE, hnil]
    have hle : (data.take MSG_SIZE).length ≤ MSG_SIZE := by
      simp [List.length_take]
    simp [hne, hle]
    simpa [List.length_take] using ih

theorem segAux_flatten (off : Nat) (data : List Nat) :
    ((segAux off data).map Prod.snd).flatten = data := by
  induction off, data using segAux.induct with
  | case1 off => rw [segAux]; rfl
  | case2 off data hnil ih =>
    rw [segAux, if_neg hnil]
    simp only [List.map_cons, List.flatten_cons, ih]
    exact List.take_append_drop _ _

theorem segAux_mem (off : Nat) (data : List Nat) :
    ∀ s p, (s, p) ∈ segAux off data →
      off ≤ s ∧ p = (data.drop (s - off)).take MSG_SIZE := by
  induction off, data using segAux.induct with
  | case1 off =>
    intro s p hmem
    rw [segAux] at hmem
    simp at hmem
  | case2 off data hnil ih =>
    intro s p hmem
    rw [segAux, if_neg hnil] at hmem
    rcases List.mem_cons.mp hmem with heq | htail
    · simp only [Prod.mk.injEq] at heq
      obtain ⟨hs, hp⟩ := heq
      subst hs; subst hp
      exact ⟨le_refl _, by simp⟩
    · obtain ⟨hle, hp⟩ := ih s p htail
      have hlen : (data.take MSG_SIZE).length = min MSG_SIZE data.length := by
        simp [List.length_take]
      refine ⟨by omega, ?_⟩
      rw [hp, List.drop_drop]
      rcases le_or_lt MSG_SIZE data.length with hcase | hcase
      · congr 2
        omega
      · have h1 : data.drop (MSG_SIZE + (s - (off + (data.take MSG_SIZE).length))) = [] :=
          List.drop_eq_nil_of_le (by omega)
        have h2 : data.drop (s - off) = [] := List.drop_eq_nil_of_le (by omega)
        rw [h1, h2]

/-- The chunk stored at a boundary offset s of the packets dict equals the
slice (data.drop s).take MSG_SIZE used by the machine model. -/
theorem segmentize_mem_eq (data : List Nat) (s : Nat) (p : List Nat)
    (h : (s, p) ∈ segmentize data) : p = chunkAt data s := by
  obtain ⟨-, hp⟩ := segAux_mem 0 data s p h
  simpa [chunkAt] using hp

/-- C5: for every non-empty byte source, the segmenter produces chunks of at
most MSG_SIZE bytes whose offsets start at 0 and increase by exactly each
chunk's length (no gaps, no overlap), concatenating all payloads in offset
order reproduces the source exactly, and the sum of the payload lengths
(the code's total_bytes, the final value of its running offset) equals the
source length. -/
theorem c5_segmenter_round_trip (data : List Nat) (h : data ≠ []) :
    wellChained 0 (segmentize data) = true ∧
    ((segmentize data).map Prod.snd).flatten = data ∧
    ((segmentize data).map (fun p => p.2.length)).sum = data.length := by
  refine ⟨segAux_wellChained 0 data, segAux_flatten 0 data, ?_⟩
  have hl := congrArg List.length (segAux_flatten 0 data)
  simpa [List.length_flatten, List.map_map, Function.comp] using hl

theorem c5_witness :
    wellChained 0 (segmentize data3) = true ∧
    ((segmentize data3).map Prod.snd).flatten = data3 ∧
    ((segmentize data3).map (fun p => p.2.length)).sum = data3.length :=
  c5_segmenter_round_trip data3 (by decide)

/-- C9: for every seq_id in the signed 4-byte range and every payload,
decoding the encoding recovers exactly the original seq_id; the bytes after
the header are exactly the original payload; and the decoded text body is
the total lenient UTF-8 decoding of those bytes, which never fails and
skips malformed byte sequences.  The same holds for the fixed-window
variant's create_packet/parse_ack pair. -/
theorem c9_codec_round_trip (n : Int) (p : List Nat)
    (h1 : -(2 ^ 31) ≤ n) (h2 : n < 2 ^ 31) :
    read_ack (make_pkt n p) = (n, String.mk (utf8DecodeIgnore p)) ∧
    (make_pkt n p).drop 4 = p ∧
    parse_ack (create_packet n p) = (n, String.mk (utf8DecodeIgnore p)) := by
  have hlen : (intToBytes4 n).length = 4 := by simp [intToBytes4]
  have htake : (intToBytes4 n ++ p).take 4 = intToBytes4 n := by
    rw [← hlen, List.take_left]
  have hdrop : (intToBytes4 n ++ p).drop 4 = p := by
    rw [← hlen, List.drop_left]
  refine ⟨?_, hdrop, ?_⟩ <;>
    simp [read_ack, parse_ack, make_pkt, create_packet, htake, hdrop,
      intToBytes4_roundtrip n h1 h2]

theorem c9_witness :
    read_ack (make_pkt (-2) [0xff, 0x61]) = (-2, "a") := by
  have h := c9_codec_round_trip (-2) [0xff, 0x61] (by norm_num) (by norm_num)
  rw [h.1]
  decide


/-! ## Transmission-controller lemmas -/

theorem sendLoop_frame (data : List Nat) (winEnd : Nat) (now : ℚ) (st : SState) :
    (sendLoop data winEnd now st).base = st.base ∧
    (sendLoop data winEnd now st).cwnd = st.cwnd ∧
    (sendLoop data winEnd now st).ssthresh = st.ssthresh ∧
    (sendLoop data winEnd now st).dup_acks = st.dup_acks ∧
    (sendLoop data winEnd now st).last_progress = st.last_progress ∧
    (sendLoop data winEnd now st).delays = st.delays := by
  induction st using sendLoop.induct data winEnd now with
  | case1 x hg ih => rw [sendLoop, if_pos hg]; exact ih
  | case2 x hg => rw [sendLoop, if_neg hg]; exact ⟨rfl, rfl, rfl, rfl, rfl, rfl⟩

theorem sendLoop_next_mono (data : List Nat) (winEnd : Nat) (now : ℚ) (st : SState) :
    st.next_seq ≤ (sendLoop data winEnd now st).next_seq := by
  induction st using sendLoop.induct data winEnd now with
  | case1 x hg ih =>
    rw [sendLoop, if_pos hg]
    refine le_trans ?_ ih
    simp
  | case2 x hg => rw [sendLoop, if_neg hg]

theorem sendLoop_next_le (data : List Nat) (winEnd : Nat) (now : ℚ) (st : SState)
    (h : st.next_seq ≤ data.length) :
    (sendLoop data winEnd now st).next_seq ≤ data.length := by
  revert h
  induction st using sendLoop.induct data winEnd now with
  | case1 x hg ih =>
    intro h
    rw [sendLoop, if_pos hg]
    refine ih ?_
    have hc := chunkAt_length data x.next_seq
    simp only [SState.mk.injEq]
    omega
  | case2 x hg =>
    intro h
    rw [sendLoop, if_neg hg]
    exact h

theorem ackWalk_fs_mem (data : List Nat) (ack : Int) (oldBase : Nat) (now : ℚ) :
    ∀ (seqs : List Nat) (fs : List (Nat × ℚ)) (ds : List ℚ) (p : Nat × ℚ),
      p ∈ (ackWalk data ack oldBase now seqs (fs, ds)).1 → p ∈ fs := by
  intro seqs
  induction seqs with
  | nil => intro fs ds p h; simpa [ackWalk] using h
  | cons s rest ih =>
    intro fs ds p h
    rw [ackWalk] at h
    by_cases h1 : s < oldBase
    · rw [if_pos h1] at h; exact ih fs ds p h
    · rw [if_neg h1] at h
      by_cases h2 : ((s + (chunkAt data s).length : Nat) : Int) ≤ ack
      · rw [if_pos h2] at h
        cases hl : fs.lookup s with
        | some t0 =>
          rw [hl] at h
          exact List.mem_of_mem_eraseP (ih _ _ p h)
        | none => rw [hl] at h; exact ih fs ds p h
      · rw [if_neg h2] at h
        simpa using h

theorem ackStep_next (isReno : Bool) (data : List Nat) (a : Int) (now : ℚ) (st : SState) :
    (ackStep isReno data a now st).next_seq = st.next_seq := by
  by_cases hgt : a > (st.base : Int)
  · by_cases hr : isReno <;> by_cases hlt : st.cwnd < st.ssthresh <;>
      simp [ackStep, hgt, hr, hlt]
  · by_cases hd : (isReno && a == (st.base : Int)) = true
    · by_cases h3 : st.dup_acks + 1 = 3 <;> simp [ackStep, hgt, hd, h3]
    · simp [ackStep, hgt, hd]

theorem ackStep_base_mono (isReno : Bool) (data : List Nat) (a : Int) (now : ℚ) (st : SState) :
    st.base ≤ (ackStep isReno data a now st).base := by
  by_cases hgt : a > (st.base : Int)
  · by_cases hr : isReno <;> by_cases hlt : st.cwnd < st.ssthresh <;>
      simp [ackStep, hgt, hr, hlt] <;> omega
  · by_cases hd : (isReno && a == (st.base : Int)) = true
    · by_cases h3 : st.dup_acks + 1 = 3 <;> simp [ackStep, hgt, hd, h3]
    · simp [ackStep, hgt, hd]

theorem ackStep_base_le (isReno : Bool) (data : List Nat) (a : Int) (now : ℚ) (st : SState)
    (h : st.base ≤ st.next_seq) (hb : a ≤ (st.next_seq : Int)) :
    (ackStep isReno data a now st).base ≤ st.next_seq := by
  by_cases hgt : a > (st.base : Int)
  · by_cases hr : isReno <;> by_cases hlt : st.cwnd < st.ssthresh <;>
      simp [ackStep, hgt, hr, hlt] <;> omega
  · by_cases hd : (isReno && a == (st.base : Int)) = true
    · by_cases h3 : st.dup_acks + 1 = 3 <;> simp [ackStep, hgt, hd, h3] <;> omega
    · simp [ackStep, hgt, hd]; omega

theorem ackStep_fs_mem (isReno : Bool) (data : List Nat) (a : Int) (now : ℚ) (st : SState)
    (p : Nat × ℚ) (h : p ∈ (ackStep isReno data a now st).firstSend) :
    p ∈ st.firstSend := by
  by_cases hgt : a > (st.base : Int)
  · by_cases hr : isReno
    · by_cases hlt : st.cwnd < st.ssthresh <;>
        [ (simp [ackStep, hgt, hr, hlt] at h;
           exact ackWalk_fs_mem data a st.base now (segOffsets data) _ _ p h);
          (simp [ackStep, hgt, hr, hlt] at h;
           exact ackWalk_fs_mem data a st.base now (segOffsets data) _ _ p h) ]
    · simp [ackStep, hgt, hr] at h
      exact ackWalk_fs_mem data a st.base now (segOffsets data) _ _ p h
  · by_cases hd : (isReno && a == (st.base : Int)) = true
    · by_cases h3 : st.dup_acks + 1 = 3 <;> simp [ackStep, hgt, hd, h3] at h <;> exact h
    · simp [ackStep, hgt, hd] at h; exact h

theorem ackStep_log_cases (isReno : Bool) (data : List Nat) (a : Int) (now : ℚ) (st : SState) :
    (ackStep isReno data a now st).log = st.log ∨
    ((ackStep isReno data a now st).log = st.log ++ [⟨SKind.fastRetx, st.base, now⟩] ∧
      a = (st.base : Int) ∧ st.dup_acks = 2 ∧ st.base < data.length) := by
  by_cases hgt : a > (st.base : Int)
  · by_cases hr : isReno <;> by_cases hlt : st.cwnd < st.ssthresh <;>
      simp [ackStep, hgt, hr, hlt]
  · by_cases hd : (isReno && a == (st.base : Int)) = true
    · by_cases h3 : st.dup_acks + 1 = 3
      · by_cases hbl : st.base < data.length
        · right
          have ha : a = (st.base : Int) := by
            have := (Bool.and_eq_true _ _).mp hd
            exact eq_of_beq this.2
          exact ⟨by simp [ackStep, hgt, hd, h3, hbl], ha, by omega, hbl⟩
        · left; simp [ackStep, hgt, hd, h3, hbl]
      · left; simp [ackStep, hgt, hd, h3]
    · left; simp [ackStep, hgt, hd]

theorem timeoutStep_frame (isReno : Bool) (data : List Nat) (now : ℚ) (st : SState) :
    (timeoutStep isReno data now st).base = st.base ∧
    (timeoutStep isReno data now st).next_seq = st.next_seq ∧
    (timeoutStep isReno data now st).firstSend = st.firstSend ∧
    (timeoutStep isReno data now st).delays = st.delays := by
  by_cases h1 : now - st.last_progress > TIMEOUT
  · by_cases h2 : isReno
    · simp [timeoutStep, h1, h2]
    · by_cases h3 : st.base < data.length <;> simp [timeoutStep, h1, h2, h3]
  · simp [timeoutStep, h1]

theorem timeoutStep_log_cases (isReno : Bool) (data : List Nat) (now : ℚ) (st : SState) :
    (timeoutStep isReno data now st).log = st.log ∨
    ((timeoutStep isReno data now st).log = st.log ++ [⟨SKind.timeoutRetx, st.base, now⟩] ∧
      now - st.last_progress > TIMEOUT ∧ st.base < data.length) := by
  by_cases h1 : now - st.last_progress > TIMEOUT
  · by_cases h3 : st.base < data.length
    · right
      refine ⟨?_, h1, h3⟩
      by_cases h2 : isReno <;> simp [timeoutStep, h1, h2, h3]
    · left
      by_cases h2 : isReno <;> simp [timeoutStep, h1, h2, h3]
  · left; simp [timeoutStep, h1]

theorem sendPhase_frame (isReno : Bool) (data : List Nat) (now : ℚ) (st : SState) :
    (sendPhase isReno data now st).base = st.base ∧
    (sendPhase isReno data now st).cwnd = st.cwnd ∧
    (sendPhase isReno data now st).ssthresh = st.ssthresh ∧
    (sendPhase isReno data now st).dup_acks = st.dup_acks ∧
    (sendPhase isReno data now st).last_progress = st.last_progress ∧
    (sendPhase isReno data now st).delays = st.delays :=
  sendLoop_frame data _ now st

theorem sendPhase_next_mono (isReno : Bool) (data : List Nat) (now : ℚ) (st : SState) :
    st.next_seq ≤ (sendPhase isReno data now st).next_seq :=
  sendLoop_next_mono data _ now st

theorem sendPhase_next_le (isReno : Bool) (data : List Nat) (now : ℚ) (st : SState)
    (h : st.next_seq ≤ data.length) :
    (sendPhase isReno data now st).next_seq ≤ data.length :=
  sendLoop_next_le data _ now st h

/-- C1: throughout every transfer loop execution, base and next_seq are
non-decreasing - in particular no received acknowledgment, whatever its
content, ever decreases base (first conjunct, over unrestricted steps) - and
under the spec's collaborator contract (every received acknowledgment covers
at most the bytes sent so far, a <= next_seq) the invariant
0 <= base <= next_seq <= total_bytes holds in every reachable state of the
reno (isReno = true) and fixed-window (isReno = false) variants. -/
theorem c1_offsets_monotone_and_bounded (isReno : Bool) (data : List Nat) (t0 : ℚ) :
    (∀ st st', Step isReno data st st' →
      st.base ≤ st'.base ∧ st.next_seq ≤ st'.next_seq) ∧
    (∀ st, Relation.ReflTransGen (BStep isReno data) (initState t0) st →
      0 ≤ st.base ∧ st.base ≤ st.next_seq ∧ st.next_seq ≤ data.length) := by
  constructor
  · intro st st' hstep
    cases hstep with
    | send now hlt =>
      exact ⟨le_of_eq (sendPhase_frame isReno data now st).1.symm,
        sendPhase_next_mono isReno data now st⟩
    | ack a now hlt =>
      exact ⟨ackStep_base_mono isReno data a now st,
        le_of_eq (ackStep_next isReno data a now st).symm⟩
    | timeout now hlt =>
      have hf := timeoutStep_frame isReno data now st
      exact ⟨le_of_eq hf.1.symm, le_of_eq hf.2.1.symm⟩
  · intro st h
    induction h with
    | refl => exact ⟨Nat.zero_le _, le_refl _, Nat.zero_le _⟩
    | @tail b c hsteps hstep ih =>
      obtain ⟨-, h1, h2⟩ := ih
      cases hstep with
      | send now hlt =>
        have hf := (sendPhase_frame isReno data now b).1
        have hm := sendPhase_next_mono isReno data now b
        have hl := sendPhase_next_le isReno data now b h2
        exact ⟨Nat.zero_le _, by omega, hl⟩
      | ack a now hx hy =>
        have hble := ackStep_base_le isReno data a now b h1 (by assumption)
        have hnx := ackStep_next isReno data a now b
        exact ⟨Nat.zero_le _, by omega, by omega⟩
      | timeout now hlt =>
        have hf := timeoutStep_frame isReno data now b
        exact ⟨Nat.zero_le _, by omega, by omega⟩

theorem c1_witness :
    (sendPhase true data3 0 (initState 0)).base ≤
      (sendPhase true data3 0 (initState 0)).next_seq ∧
    (sendPhase true data3 0 (initState 0)).next_seq ≤ data3.length := by
  have h := (c1_offsets_monotone_and_bounded true data3 0).2
    (sendPhase true data3 0 (initState 0))
    (Relation.ReflTransGen.single (BStep.send 0 (initState 0) (by decide)))
  exact ⟨h.2.1, h.2.2⟩

/-- C3: in the reno variant, whenever the timeout transition fires while
base < total_bytes, the resulting state has ssthresh = max(cwnd/2, 2),
cwnd = 1, dup_acks = 0, and exactly the segment at base is retransmitted,
regardless of the prior congestion state (the theorem quantifies over every
state). -/
theorem c3_timeout_collapse (data : List Nat) (now : ℚ) (st : SState)
    (hfire : now - st.last_progress > TIMEOUT) (hb : st.base < data.length) :
    (timeoutStep true data now st).ssthresh = max (st.cwnd / 2) 2 ∧
    (timeoutStep true data now st).cwnd = 1 ∧
    (timeoutStep true data now st).dup_acks = 0 ∧
    (timeoutStep true data now st).log = st.log ++ [⟨SKind.timeoutRetx, st.base, now⟩] ∧
    (timeoutStep true data now st).base = st.base ∧
    (timeoutStep true data now st).next_seq = st.next_seq := by
  simp [timeoutStep, hfire, hb]

theorem c3_witness :
    (timeoutStep true data3 1 (initState 0)).ssthresh = 2 ∧
    (timeoutStep true data3 1 (initState 0)).cwnd = 1 ∧
    (timeoutStep true data3 1 (initState 0)).dup_acks = 0 ∧
    (timeoutStep true data3 1 (initState 0)).log = [⟨SKind.timeoutRetx, 0, 1⟩] := by
  have h := c3_timeout_collapse data3 1 (initState 0)
    (by norm_num [initState, TIMEOUT]) (by decide)
  refine ⟨?_, h.2.1, h.2.2.1, ?_⟩
  · rw [h.1]
    have : (initState 0).cwnd = 1 := rfl
    rw [this]
    rw [max_eq_right (by norm_num : (1:ℚ)/2 ≤ 2)]
  · rw [h.2.2.2.1]
    simp [initState]

theorem ackStep_window_inv (data : List Nat) (a : Int) (now : ℚ) (s : SState)
    (hc : 1 ≤ s.cwnd) (hs' : 2 ≤ s.ssthresh) :
    1 ≤ (ackStep true data a now s).cwnd ∧ 2 ≤ (ackStep true data a now s).ssthresh := by
  by_cases hgt : a > (s.base : Int)
  · by_cases hlt : s.cwnd < s.ssthresh
    · simp [ackStep, hgt, hlt]
      exact ⟨by linarith, hs'⟩
    · simp [ackStep, hgt, hlt]
      have h0 : (0:ℚ) < s.cwnd := by linarith
      have h1 : (0:ℚ) ≤ s.cwnd⁻¹ := by positivity
      exact ⟨by linarith, hs'⟩
  · by_cases hd : (a == (s.base : Int)) = true
    · by_cases h3 : s.dup_acks + 1 = 3
      · simp [ackStep, hgt, hd, h3]
        linarith [le_max_right (s.cwnd / 2) (2:ℚ)]
      · simp [ackStep, hgt, hd, h3]
        exact ⟨hc, hs'⟩
    · simp [ackStep, hgt, hd]
      exact ⟨hc, hs'⟩

theorem timeoutStep_window_inv (data : List Nat) (now : ℚ) (s : SState)
    (hc : 1 ≤ s.cwnd) (hs' : 2 ≤ s.ssthresh) :
    1 ≤ (timeoutStep true data now s).cwnd ∧ 2 ≤ (timeoutStep true data now s).ssthresh := by
  by_cases h1 : now - s.last_progress > TIMEOUT
  · simp [timeoutStep, h1]
  · simp [timeoutStep, h1]
    exact ⟨hc, hs'⟩

/-- C10: in the reno variant, 1 <= cwnd and 2 <= ssthresh hold initially
(cwnd = 1, ssthresh = 64) and in every reachable state: new-ack growth,
fast retransmit and the timeout collapse all preserve them. -/
theorem c10_reno_window_invariant (data : List Nat) (t0 : ℚ) (st : SState)
    (h : Relation.ReflTransGen (Step true data) (initState t0) st) :
    1 ≤ st.cwnd ∧ 2 ≤ st.ssthresh := by
  induction h with
  | refl =>
    constructor
    · norm_num [initState, CWND0]
    · norm_num [initState, SSTHRESH0]
  | @tail b c hsteps hstep ih =>
    obtain ⟨hc, hs'⟩ := ih
    cases hstep with
    | send now hlt =>
      have hf := sendPhase_frame true data now b
      exact ⟨hf.2.1 ▸ hc, hf.2.2.1 ▸ hs'⟩
    | ack a now hlt => exact ackStep_window_inv data a now b hc hs'
    | timeout now hlt => exact timeoutStep_window_inv data now b hc hs'

theorem c10_witness :
    1 ≤ (timeoutStep true data3 1 (initState 0)).cwnd ∧
    2 ≤ (timeoutStep true data3 1 (initState 0)).ssthresh :=
  c10_reno_window_invariant data3 0 _
    (Relation.ReflTransGen.single (Step.timeout 1 (initState 0) (by decide)))

/-! ## Duplicate-acknowledgment runs (reno) -/

theorem ackStep_dup_eq (data : List Nat) (now : ℚ) (s : SState)
    (h3 : s.dup_acks + 1 ≠ 3) :
    ackStep true data (s.base : Int) now s = { s with dup_acks := s.dup_acks + 1 } := by
  simp [ackStep, h3]

theorem ackStep_dup3_eq (data : List Nat) (now : ℚ) (s : SState)
    (h3 : s.dup_acks = 2) :
    ackStep true data (s.base : Int) now s =
      { s with
        dup_acks := 3,
        ssthresh := max (s.cwnd / 2) 2, cwnd := max (s.cwnd / 2) 2 + 3,
        log := if s.base < data.length then s.log ++ [⟨SKind.fastRetx, s.base, now⟩]
               else s.log } := by
  simp [ackStep, h3]

theorem dupRun_saturated (data : List Nat) (ts : List ℚ) (s : SState)
    (h : 3 ≤ s.dup_acks) :
    dupRun data ts s = { s with dup_acks := s.dup_acks + ts.length } := by
  induction ts generalizing s with
  | nil => simp [dupRun]
  | cons t rest ih =>
    have hstep : ackStep true data (s.base : Int) t s = { s with dup_acks := s.dup_acks + 1 } :=
      ackStep_dup_eq data t s (by omega)
    simp only [dupRun, List.foldl_cons] at ih ⊢
    rw [hstep, ih { s with dup_acks := s.dup_acks + 1 } (by simpa using by omega)]
    simp only [List.length_cons]
    congr 1
    omega

theorem dupRun_from_zero (data : List Nat) (st : SState) (h0 : st.dup_acks = 0)
    (hb : st.base < data.length) (t1 t2 t3 : ℚ) (rest : List ℚ) :
    dupRun data (t1 :: t2 :: t3 :: rest) st =
      { st with
        dup_acks := 3 + rest.length,
        ssthresh := max (st.cwnd / 2) 2, cwnd := max (st.cwnd / 2) 2 + 3,
        log := st.log ++ [⟨SKind.fastRetx, st.base, t3⟩] } := by
  have e1 : ackStep true data (st.base : Int) t1 st = { st with dup_acks := 1 } := by
    rw [ackStep_dup_eq data t1 st (by omega), h0]
  have e2 : ackStep true data (st.base : Int) t2 { st with dup_acks := 1 } =
      { st with dup_acks := 2 } :=
    ackStep_dup_eq data t2 { st with dup_acks := 1 } (by simp)
  have e3 : ackStep true data (st.base : Int) t3 { st with dup_acks := 2 } =
      { st with
        dup_acks := 3,
        ssthresh := max (st.cwnd / 2) 2, cwnd := max (st.cwnd / 2) 2 + 3,
        log := st.log ++ [⟨SKind.fastRetx, st.base, t3⟩] } := by
    rw [ackStep_dup3_eq data t3 { st with dup_acks := 2 } rfl]
    simp [hb]
  have e4 := dupRun_saturated data rest
    { st with
      dup_acks := 3,
      ssthresh := max (st.cwnd / 2) 2, cwnd := max (st.cwnd / 2) 2 + 3,
      log := st.log ++ [⟨SKind.fastRetx, st.base, t3⟩] } (by simp)
  simp only [dupRun, List.foldl_cons] at e4 ⊢
  rw [e1, e2, e3, e4]

/-- C2 (amended): in the reno variant, starting from any state with
dup_acks = 0 (as after any base advance or timeout) and base < total_bytes,
a run of three or more duplicate acknowledgments at base performs exactly
one fast retransmit (at the third duplicate, of the segment at base), after
which ssthresh = max(cwnd_before/2, 2) and cwnd = max(cwnd_before/2, 2) + 3;
the duplicates after the third trigger nothing further.  The run must not be
interrupted: a timeout inside it resets dup_acks and re-arms fast
retransmit even though base has not advanced (see the counterexample). -/
theorem c2_fast_retransmit_amended (data : List Nat) (st : SState) (ts : List ℚ)
    (h0 : st.dup_acks = 0) (hb : st.base < data.length) (h3 : 3 ≤ ts.length) :
    countFR (dupRun data ts st).log = countFR st.log + 1 ∧
    (dupRun data ts st).base = st.base ∧
    (dupRun data ts st).next_seq = st.next_seq ∧
    (dupRun data ts st).ssthresh = max (st.cwnd / 2) 2 ∧
    (dupRun data ts st).cwnd = max (st.cwnd / 2) 2 + 3 ∧
    (∃ t : ℚ, (dupRun data ts st).log = st.log ++ [⟨SKind.fastRetx, st.base, t⟩]) := by
  rcases ts with _ | ⟨t1, ts1⟩
  · simp at h3
  rcases ts1 with _ | ⟨t2, ts2⟩
  · simp at h3
  rcases ts2 with _ | ⟨t3, rest⟩
  · simp at h3
  rw [dupRun_from_zero data st h0 hb t1 t2 t3 rest]
  refine ⟨?_, rfl, rfl, rfl, rfl, ⟨t3, rfl⟩⟩
  simp [countFR]

theorem c2_witness :
    countFR (dupRun data3 [0, 0, 0] (initState 0)).log = 1 ∧
    (dupRun data3 [0, 0, 0] (initState 0)).ssthresh = 2 ∧
    (dupRun data3 [0, 0, 0] (initState 0)).cwnd = 5 ∧
    (dupRun data3 [0, 0, 0] (initState 0)).base = 0 := by
  have h := c2_fast_retransmit_amended data3 (initState 0) [0, 0, 0] rfl (by decide)
    (by norm_num)
  have hmax : max ((initState 0).cwnd / 2) 2 = (2:ℚ) := by
    rw [max_eq_right]
    norm_num [initState, CWND0]
  refine ⟨?_, ?_, ?_, h.2.1⟩
  · rw [h.1]; rfl
  · rw [h.2.2.2.1, hmax]
  · rw [h.2.2.2.2.1, hmax]; norm_num

theorem sendPhase_data3_init :
    sendPhase true data3 0 (initState 0) =
      (⟨0, 3, 1, 64, 0, 0, [(0, 0)], [], [⟨SKind.fresh, 0, 0⟩]⟩ : SState) := by
  have hw : sendPhase true data3 0 (initState 0) = sendLoop data3 1020 0 (initState 0) := by
    unfold sendPhase
    norm_num [initState, CWND0, Rat.floor, MSG_SIZE, PACKET_SIZE, SEQ_ID_SIZE]
  rw [hw, sendLoop, if_pos (by decide :
    (initState 0 : SState).next_seq < data3.length ∧ (initState 0 : SState).next_seq < 1020)]
  rw [sendLoop]
  norm_num [initState, CWND0, SSTHRESH0, chunkAt, data3, List.lookup]
  decide

/-- Counterexample run for claim C2: after the three duplicates and their
fast retransmit, a timeout fires (resetting dup_acks); three further
duplicates at the same, unadvanced base then trigger a second fast
retransmit. -/
theorem c2_counterexample :
    Relation.ReflTransGen (Step true data3) (initState 0) c2runEnd ∧
    countFR c2runEnd.log = 2 ∧ c2runEnd.base = 0 := by
  refine ⟨?_, by decide, by decide⟩
  have h1 : Step true data3 (initState 0)
      (⟨0, 3, 1, 64, 0, 0, [(0, 0)], [], [⟨SKind.fresh, 0, 0⟩]⟩ : SState) := by
    have h := @Step.send true data3 0 (initState 0) (by decide)
    rwa [sendPhase_data3_init] at h
  have e2 : ackStep true data3 0 0 (⟨0, 3, 1, 64, 0, 0, [(0, 0)], [], [⟨SKind.fresh, 0, 0⟩]⟩ : SState) =
      (⟨0, 3, 1, 64, 1, 0, [(0, 0)], [], [⟨SKind.fresh, 0, 0⟩]⟩ : SState) := by
    simpa using ackStep_dup_eq data3 0 _ (by norm_num)
  have h2 : Step true data3
      (⟨0, 3, 1, 64, 0, 0, [(0, 0)], [], [⟨SKind.fresh, 0, 0⟩]⟩ : SState)
      (⟨0, 3, 1, 64, 1, 0, [(0, 0)], [], [⟨SKind.fresh, 0, 0⟩]⟩ : SState) := by
    have h := @Step.ack true data3 0 0
      (⟨0, 3, 1, 64, 0, 0, [(0, 0)], [], [⟨SKind.fresh, 0, 0⟩]⟩ : SState) (by decide)
    rwa [e2] at h
  have e3 : ackStep true data3 0 0 (⟨0, 3, 1, 64, 1, 0, [(0, 0)], [], [⟨SKind.fresh, 0, 0⟩]⟩ : SState) =
      (⟨0, 3, 1, 64, 2, 0, [(0, 0)], [], [⟨SKind.fresh, 0, 0⟩]⟩ : SState) := by
    simpa using ackStep_dup_eq data3 0 _ (by norm_num)
  have h3 : Step true data3
      (⟨0, 3, 1, 64, 1, 0, [(0, 0)], [], [⟨SKind.fresh, 0, 0⟩]⟩ : SState)
      (⟨0, 3, 1, 64, 2, 0, [(0, 0)], [], [⟨SKind.fresh, 0, 0⟩]⟩ : SState) := by
    have h := @Step.ack true data3 0 0
      (⟨0, 3, 1, 64, 1, 0, [(0, 0)], [], [⟨SKind.fresh, 0, 0⟩]⟩ : SState) (by decide)
    rwa [e3] at h
  have e4 : ackStep true data3 0 0 (⟨0, 3, 1, 64, 2, 0, [(0, 0)], [], [⟨SKind.fresh, 0, 0⟩]⟩ : SState) =
      (⟨0, 3, 5, 2, 3, 0, [(0, 0)], [],
        [⟨SKind.fresh, 0, 0⟩, ⟨SKind.fastRetx, 0, 0⟩]⟩ : SState) := by
    have h := ackStep_dup3_eq data3 0
      (⟨0, 3, 1, 64, 2, 0, [(0, 0)], [], [⟨SKind.fresh, 0, 0⟩]⟩ : SState) rfl
    rw [show ((⟨0, 3, 1, 64, 2, 0, [(0, 0)], [], [⟨SKind.fresh, 0, 0⟩]⟩ : SState).base : Int) = 0
      by norm_num] at h
    rw [h]
    norm_num [max_def, data3]
  have h4 : Step true data3
      (⟨0, 3, 1, 64, 2, 0, [(0, 0)], [], [⟨SKind.fresh, 0, 0⟩]⟩ : SState)
      (⟨0, 3, 5, 2, 3, 0, [(0, 0)], [],
        [⟨SKind.fresh, 0, 0⟩, ⟨SKind.fastRetx, 0, 0⟩]⟩ : SState) := by
    have h := @Step.ack true data3 0 0
      (⟨0, 3, 1, 64, 2, 0, [(0, 0)], [], [⟨SKind.fresh, 0, 0⟩]⟩ : SState) (by decide)
    rwa [e4] at h
  have e5 : timeoutStep true data3 1
      (⟨0, 3, 5, 2, 3, 0, [(0, 0)], [],
        [⟨SKind.fresh, 0, 0⟩, ⟨SKind.fastRetx, 0, 0⟩]⟩ : SState) =
      (⟨0, 3, 1, 5/2, 0, 1, [(0, 0)], [],
        [⟨SKind.fresh, 0, 0⟩, ⟨SKind.fastRetx, 0, 0⟩, ⟨SKind.timeoutRetx, 0, 1⟩]⟩ : SState) := by
    norm_num [timeoutStep, TIMEOUT, max_def, data3]
  have h5 : Step true data3
      (⟨0, 3, 5, 2, 3, 0, [(0, 0)], [],
        [⟨SKind.fresh, 0, 0⟩, ⟨SKind.fastRetx, 0, 0⟩]⟩ : SState)
      (⟨0, 3, 1, 5/2, 0, 1, [(0, 0)], [],
        [⟨SKind.fresh, 0, 0⟩, ⟨SKind.fastRetx, 0, 0⟩, ⟨SKind.timeoutRetx, 0, 1⟩]⟩ : SState) := by
    have h := @Step.timeout true data3 1
      (⟨0, 3, 5, 2, 3, 0, [(0, 0)], [],
        [⟨SKind.fresh, 0, 0⟩, ⟨SKind.fastRetx, 0, 0⟩]⟩ : SState) (by decide)
    rwa [e5] at h
  have e6 : ackStep true data3 0 2
      (⟨0, 3, 1, 5/2, 0, 1, [(0, 0)], [],
        [⟨SKind.fresh, 0, 0⟩, ⟨SKind.fastRetx, 0, 0⟩, ⟨SKind.timeoutRetx, 0, 1⟩]⟩ : SState) =
      (⟨0, 3, 1, 5/2, 1, 1, [(0, 0)], [],
        [⟨SKind.fresh, 0, 0⟩, ⟨SKind.fastRetx, 0, 0⟩, ⟨SKind.timeoutRetx, 0, 1⟩]⟩ : SState) := by
    simpa using ackStep_dup_eq data3 2 _ (by norm_num)
  have h6 : Step true data3
      (⟨0, 3, 1, 5/2, 0, 1, [(0, 0)], [],
        [⟨SKind.fresh, 0, 0⟩, ⟨SKind.fastRetx, 0, 0⟩, ⟨SKind.timeoutRetx, 0, 1⟩]⟩ : SState)
      (⟨0, 3, 1, 5/2, 1, 1, [(0, 0)], [],
        [⟨SKind.fresh, 0, 0⟩, ⟨SKind.fastRetx, 0, 0⟩, ⟨SKind.timeoutRetx, 0, 1⟩]⟩ : SState) := by
    have h := @Step.ack true data3 0 2
      (⟨0, 3, 1, 5/2, 0, 1, [(0, 0)], [],
        [⟨SKind.fresh, 0, 0⟩, ⟨SKind.fastRetx, 0, 0⟩, ⟨SKind.timeoutRetx, 0, 1⟩]⟩ : SState) (by decide)
    rwa [e6] at h
  have e7 : ackStep true data3 0 2
      (⟨0, 3, 1, 5/2, 1, 1, [(0, 0)], [],
        [⟨SKind.fresh, 0, 0⟩, ⟨SKind.fastRetx, 0, 0⟩, ⟨SKind.timeoutRetx, 0, 1⟩]⟩ : SState) =
      (⟨0, 3, 1, 5/2, 2, 1, [(0, 0)], [],
        [⟨SKind.fresh, 0, 0⟩, ⟨SKind.fastRetx, 0, 0⟩, ⟨SKind.timeoutRetx, 0, 1⟩]⟩ : SState) := by
    simpa using ackStep_dup_eq data3 2 _ (by norm_num)
  have h7 : Step true data3
      (⟨0, 3, 1, 5/2, 1, 1, [(0, 0)], [],
        [⟨SKind.fresh, 0, 0⟩, ⟨SKind.fastRetx, 0, 0⟩, ⟨SKind.timeoutRetx, 0, 1⟩]⟩ : SState)
      (⟨0, 3, 1, 5/2, 2, 1, [(0, 0)], [],
        [⟨SKind.fresh, 0, 0⟩, ⟨SKind.fastRetx, 0, 0⟩, ⟨SKind.timeoutRetx, 0, 1⟩]⟩ : SState) := by
    have h := @Step.ack true data3 0 2
      (⟨0, 3, 1, 5/2, 1, 1, [(0, 0)], [],
        [⟨SKind.fresh, 0, 0⟩, ⟨SKind.fastRetx, 0, 0⟩, ⟨SKind.timeoutRetx, 0, 1⟩]⟩ : SState) (by decide)
    rwa [e7] at h
  have e8 : ackStep true data3 0 2
      (⟨0, 3, 1, 5/2, 2, 1, [(0, 0)], [],
        [⟨SKind.fresh, 0, 0⟩, ⟨SKind.fastRetx, 0, 0⟩, ⟨SKind.timeoutRetx, 0, 1⟩]⟩ : SState) =
      c2runEnd := by
    have h := ackStep_dup3_eq data3 2
      (⟨0, 3, 1, 5/2, 2, 1, [(0, 0)], [],
        [⟨SKind.fresh, 0, 0⟩, ⟨SKind.fastRetx, 0, 0⟩, ⟨SKind.timeoutRetx, 0, 1⟩]⟩ : SState) rfl
    rw [show ((⟨0, 3, 1, 5/2, 2, 1, [(0, 0)], [],
      [⟨SKind.fresh, 0, 0⟩, ⟨SKind.fastRetx, 0, 0⟩, ⟨SKind.timeoutRetx, 0, 1⟩]⟩ : SState).base : Int) = 0
      by norm_num] at h
    rw [h, c2runEnd]
    norm_num [max_def, data3]
  have h8 : Step true data3
      (⟨0, 3, 1, 5/2, 2, 1, [(0, 0)], [],
        [⟨SKind.fresh, 0, 0⟩, ⟨SKind.fastRetx, 0, 0⟩, ⟨SKind.timeoutRetx, 0, 1⟩]⟩ : SState)
      c2runEnd := by
    have h := @Step.ack true data3 0 2
      (⟨0, 3, 1, 5/2, 2, 1, [(0, 0)], [],
        [⟨SKind.fresh, 0, 0⟩, ⟨SKind.fastRetx, 0, 0⟩, ⟨SKind.timeoutRetx, 0, 1⟩]⟩ : SState) (by decide)
    rwa [e8] at h
  exact Relation.ReflTransGen.head h1 (Relation.ReflTransGen.head h2
    (Relation.ReflTransGen.head h3 (Relation.ReflTransGen.head h4
      (Relation.ReflTransGen.head h5 (Relation.ReflTransGen.head h6
        (Relation.ReflTransGen.head h7 (Relation.ReflTransGen.single h8)))))))

/-! ## First-send records and the transmission log -/

theorem sendLoop_inv (data : List Nat) (winEnd : Nat) (now : ℚ) (st : SState)
    (h1 : ∀ e ∈ st.log, e.off < st.next_seq)
    (h2 : ∀ p ∈ st.firstSend, firstLogTime st.log p.1 = some p.2) :
    (∀ e ∈ (sendLoop data winEnd now st).log,
      e.off < (sendLoop data winEnd now st).next_seq) ∧
    (∀ p ∈ (sendLoop data winEnd now st).firstSend,
      firstLogTime (sendLoop data winEnd now st).log p.1 = some p.2) := by
  revert h1 h2
  induction st using sendLoop.induct data winEnd now with
  | case1 x hg ih =>
    intro h1 h2
    rw [sendLoop, if_pos hg]
    have hclen : 1 ≤ (chunkAt data x.next_seq).length := by
      rw [chunkAt_length]
      have hx := hg.1
      rw [MSG_SIZE_eq]
      omega
    refine ih ?_ ?_
    · intro e he
      rcases List.mem_append.mp he with hl | hr
      · have := h1 e hl
        simp only []
        omega
      · simp only [List.mem_singleton] at hr
        subst hr
        simp only []
        omega
    · intro p hp
      by_cases hs : (x.firstSend.lookup x.next_seq).isSome
      · rw [dif_pos hs] at hp
        exact firstLogTime_append_of_some _ _ _ _ (h2 p hp)
      · rw [dif_neg hs] at hp
        rcases List.mem_cons.mp hp with hq | hq
        · subst hq
          exact firstLogTime_append_fresh x.log SKind.fresh x.next_seq now
            (fun e he => by have := h1 e he; omega)
        · exact firstLogTime_append_of_some _ _ _ _ (h2 p hq)
  | case2 x hg =>
    intro h1 h2
    rw [sendLoop, if_neg hg]
    exact ⟨h1, h2⟩

theorem rsteps_inv (isReno : Bool) (data : List Nat) (t0 : ℚ) (st : SState)
    (h : Relation.ReflTransGen (RStep isReno data) (initState t0) st) :
    (∀ e ∈ st.log, e.off < st.next_seq) ∧
    (∀ p ∈ st.firstSend, firstLogTime st.log p.1 = some p.2) := by
  induction h with
  | refl => exact ⟨by simp [initState], by simp [initState]⟩
  | @tail b c hsteps hstep ih =>
    obtain ⟨h1, h2⟩ := ih
    cases hstep with
    | send now hlt => exact sendLoop_inv data _ now b h1 h2
    | ack a now hx hy =>
      have hfr : a = (b.base : Int) → b.dup_acks = 2 → b.base < b.next_seq := by
        assumption
      constructor
      · intro e he
        rw [ackStep_next]
        rcases ackStep_log_cases isReno data a now b with hc | ⟨hc, ha, hd, hbl⟩
        · rw [hc] at he
          exact h1 e he
        · rw [hc] at he
          rcases List.mem_append.mp he with hl | hr
          · exact h1 e hl
          · simp only [List.mem_singleton] at hr
            subst hr
            simpa using hfr ha hd
      · intro p hp
        have hp' := ackStep_fs_mem isReno data a now b p hp
        rcases ackStep_log_cases isReno data a now b with hc | ⟨hc, -, -, -⟩
        · rw [hc]
          exact h2 p hp'
        · rw [hc]
          exact firstLogTime_append_of_some _ _ _ _ (h2 p hp')
    | timeout now hx hy =>
      have hrt : now - b.last_progress > TIMEOUT → b.base < b.next_seq := by
        assumption
      constructor
      · intro e he
        rw [(timeoutStep_frame isReno data now b).2.1]
        rcases timeoutStep_log_cases isReno data now b with hc | ⟨hc, hfire, hbl⟩
        · rw [hc] at he
          exact h1 e he
        · rw [hc] at he
          rcases List.mem_append.mp he with hl | hr2
          · exact h1 e hl
          · simp only [List.mem_singleton] at hr2
            subst hr2
            simpa using hrt hfire
      · intro p hp
        rw [(timeoutStep_frame isReno data now b).2.2.1] at hp
        rcases timeoutStep_log_cases isReno data now b with hc | ⟨hc, -, -⟩
        · rw [hc]
          exact h2 p hp
        · rw [hc]
          exact firstLogTime_append_of_some _ _ _ _ (h2 p hp)

/-- C4 (amended): along every transfer-loop run in which each retransmission
(timeout or fast retransmit) fires at an offset already transmitted - which
the loop guarantees except in the timing race exhibited by the
counterexample - every recorded first-send timestamp equals the clock
reading of that offset's first-ever transmission: it is recorded at the
first transmission and never overwritten by any retransmission, so the
delay finalised for a segment (now minus its record) measures from the
first transmission attempt.  Holds for the reno and fixed variants. -/
theorem c4_first_send_time_amended (isReno : Bool) (data : List Nat) (t0 : ℚ) (st : SState)
    (h : Relation.ReflTransGen (RStep isReno data) (initState t0) st)
    (s : Nat) (t : ℚ) (hl : st.firstSend.lookup s = some t) :
    firstLogTime st.log s = some t :=
  (rsteps_inv isReno data t0 st h).2 (s, t) (lookup_mem hl)

theorem c4_witness :
    firstLogTime (sendPhase true data3 0 (initState 0)).log 0 = some 0 := by
  refine c4_first_send_time_amended true data3 0 _
    (Relation.ReflTransGen.single (RStep.send 0 (initState 0) (by decide))) 0 0 ?_
  rw [sendPhase_data3_init]
  decide

theorem segmentize_dataBig :
    segmentize dataBig = [(0, List.replicate 1020 0), (1020, [0])] := by
  rw [segmentize, segAux, if_neg (by simp [dataBig] : ¬ dataBig = [])]
  rw [show dataBig.take MSG_SIZE = List.replicate 1020 0 by
    simp [dataBig, MSG_SIZE_eq, List.take_replicate]]
  rw [show dataBig.drop MSG_SIZE = [(0:Nat)] by
    simp [dataBig, MSG_SIZE_eq, List.drop_replicate]]
  rw [segAux, if_neg (by simp : ¬ ([(0:Nat)] = []))]
  rw [segAux]
  simp [MSG_SIZE_eq, List.length_replicate]

theorem segOffsets_dataBig : segOffsets dataBig = [0, 1020] := by
  rw [segOffsets, segmentize_dataBig]
  rfl

theorem chunkAt_dataBig_0 : (chunkAt dataBig 0).length = 1020 := by
  rw [chunkAt_length, MSG_SIZE_eq]
  simp [dataBig]

theorem chunkAt_dataBig_1020 : (chunkAt dataBig 1020).length = 1 := by
  rw [chunkAt_length, MSG_SIZE_eq]
  simp [dataBig]

theorem dataBig_length : dataBig.length = 1021 := by
  simp [dataBig]

theorem sendPhase_dataBig_init :
    sendPhase true dataBig 0 (initState 0) =
      (⟨0, 1020, 1, 64, 0, 0, [(0, 0)], [], [⟨SKind.fresh, 0, 0⟩]⟩ : SState) := by
  have hw : sendPhase true dataBig 0 (initState 0) = sendLoop dataBig 1020 0 (initState 0) := by
    unfold sendPhase
    norm_num [initState, CWND0, Rat.floor, MSG_SIZE, PACKET_SIZE, SEQ_ID_SIZE]
  rw [hw, sendLoop, if_pos (show (initState 0 : SState).next_seq < dataBig.length ∧
      (initState 0 : SState).next_seq < 1020 by simp [initState, dataBig])]
  rw [sendLoop]
  norm_num [initState, CWND0, SSTHRESH0, chunkAt_dataBig_0, List.lookup]

theorem ackStep_dataBig_K1 :
    ackStep true dataBig 1020 0
      (⟨0, 1020, 1, 64, 0, 0, [(0, 0)], [], [⟨SKind.fresh, 0, 0⟩]⟩ : SState) =
      (⟨1020, 1020, 2, 64, 0, 0, [], [0], [⟨SKind.fresh, 0, 0⟩]⟩ : SState) := by
  have hwalk : ackWalk dataBig 1020 0 0 [0, 1020] ([(0, 0)], []) = ([], [0]) := by
    rw [ackWalk]
    rw [if_neg (by norm_num), if_pos (show ((0 + (chunkAt dataBig 0).length : Nat) : Int) ≤ 1020
      by rw [chunkAt_dataBig_0]; norm_num)]
    norm_num [List.lookup, List.eraseP]
    rw [ackWalk]
    rw [if_neg (by norm_num), if_neg (show ¬ ((1020 + (chunkAt dataBig 1020).length : Nat) : Int) ≤ 1020
      by rw [chunkAt_dataBig_1020]; norm_num)]
  unfold ackStep
  rw [segOffsets_dataBig]
  rw [if_pos (by norm_num :
    (1020 : Int) > (((⟨0, 1020, 1, 64, 0, 0, [(0, 0)], [], [⟨SKind.fresh, 0, 0⟩]⟩ : SState)).base : Int))]
  simp only [hwalk]
  norm_num
  decide

theorem timeoutStep_dataBig_K2 :
    timeoutStep true dataBig 1
      (⟨1020, 1020, 2, 64, 0, 0, [], [0], [⟨SKind.fresh, 0, 0⟩]⟩ : SState) =
      (⟨1020, 1020, 1, 2, 0, 1, [], [0],
        [⟨SKind.fresh, 0, 0⟩, ⟨SKind.timeoutRetx, 1020, 1⟩]⟩ : SState) := by
  norm_num [timeoutStep, TIMEOUT, max_def, dataBig]

theorem sendPhase_dataBig_K3 :
    sendPhase true dataBig 2
      (⟨1020, 1020, 1, 2, 0, 1, [], [0],
        [⟨SKind.fresh, 0, 0⟩, ⟨SKind.timeoutRetx, 1020, 1⟩]⟩ : SState) = c4runEnd := by
  have hw : sendPhase true dataBig 2
      (⟨1020, 1020, 1, 2, 0, 1, [], [0],
        [⟨SKind.fresh, 0, 0⟩, ⟨SKind.timeoutRetx, 1020, 1⟩]⟩ : SState) =
      sendLoop dataBig 2040 2
        (⟨1020, 1020, 1, 2, 0, 1, [], [0],
          [⟨SKind.fresh, 0, 0⟩, ⟨SKind.timeoutRetx, 1020, 1⟩]⟩ : SState) := by
    unfold sendPhase
    norm_num [Rat.floor, MSG_SIZE, PACKET_SIZE, SEQ_ID_SIZE]
  rw [hw, sendLoop, if_pos (show
      (⟨1020, 1020, 1, 2, 0, 1, [], [0],
        [⟨SKind.fresh, 0, 0⟩, ⟨SKind.timeoutRetx, 1020, 1⟩]⟩ : SState).next_seq < dataBig.length ∧
      (⟨1020, 1020, 1, 2, 0, 1, [], [0],
        [⟨SKind.fresh, 0, 0⟩, ⟨SKind.timeoutRetx, 1020, 1⟩]⟩ : SState).next_seq < 2040
      by simp [dataBig])]
  rw [sendLoop]
  norm_num [chunkAt_dataBig_1020, dataBig_length, List.lookup, c4runEnd]

/-- Counterexample run for claim C4 on a 1021-byte source, reno variant.
The trace follows the loop's phase order: iteration 1 runs its send phase at
time 0 (segment 0 transmitted, record (0, 0) made), processes the
acknowledgment 1020 at time 0 (base = next_seq = 1020 < total), and - after
a stall of more than TIMEOUT inside the same iteration - its timeout check
fires at time 1, retransmitting segment 1020: the first-ever transmission of
that offset, with no send record made.  Iteration 2's send phase then sends
segment 1020 at time 2 and records first-send time 2 for it.  The recorded
timestamp (2) is not the time of the offset's first-ever transmission (1),
refuting the claim that a first-send timestamp is only ever recorded at an
offset's first transmission. -/
theorem c4_counterexample :
    Relation.ReflTransGen (Step true dataBig) (initState 0) c4runEnd ∧
    c4runEnd.firstSend.lookup 1020 = some 2 ∧
    firstLogTime c4runEnd.log 1020 = some 1 ∧
    (2 : ℚ) ≠ 1 := by
  refine ⟨?_, by decide, by decide, by norm_num⟩
  have k1 : Step true dataBig (initState 0)
      (⟨0, 1020, 1, 64, 0, 0, [(0, 0)], [], [⟨SKind.fresh, 0, 0⟩]⟩ : SState) := by
    have h := @Step.send true dataBig 0 (initState 0)
      (by simp [initState, dataBig])
    rwa [sendPhase_dataBig_init] at h
  have k2 : Step true dataBig
      (⟨0, 1020, 1, 64, 0, 0, [(0, 0)], [], [⟨SKind.fresh, 0, 0⟩]⟩ : SState)
      (⟨1020, 1020, 2, 64, 0, 0, [], [0], [⟨SKind.fresh, 0, 0⟩]⟩ : SState) := by
    have h := @Step.ack true dataBig 1020 0
      (⟨0, 1020, 1, 64, 0, 0, [(0, 0)], [], [⟨SKind.fresh, 0, 0⟩]⟩ : SState)
      (by simp [dataBig])
    rwa [ackStep_dataBig_K1] at h
  have k3 : Step true dataBig
      (⟨1020, 1020, 2, 64, 0, 0, [], [0], [⟨SKind.fresh, 0, 0⟩]⟩ : SState)
      (⟨1020, 1020, 1, 2, 0, 1, [], [0],
        [⟨SKind.fresh, 0, 0⟩, ⟨SKind.timeoutRetx, 1020, 1⟩]⟩ : SState) := by
    have h := @Step.timeout true dataBig 1
      (⟨1020, 1020, 2, 64, 0, 0, [], [0], [⟨SKind.fresh, 0, 0⟩]⟩ : SState)
      (by simp [dataBig])
    rwa [timeoutStep_dataBig_K2] at h
  have k4 : Step true dataBig
      (⟨1020, 1020, 1, 2, 0, 1, [], [0],
        [⟨SKind.fresh, 0, 0⟩, ⟨SKind.timeoutRetx, 1020, 1⟩]⟩ : SState) c4runEnd := by
    have h := @Step.send true dataBig 2
      (⟨1020, 1020, 1, 2, 0, 1, [], [0],
        [⟨SKind.fresh, 0, 0⟩, ⟨SKind.timeoutRetx, 1020, 1⟩]⟩ : SState)
      (by simp [dataBig])
    rwa [sendPhase_dataBig_K3] at h
  exact Relation.ReflTransGen.head k1 (Relation.ReflTransGen.head k2
    (Relation.ReflTransGen.head k3 (Relation.ReflTransGen.single k4)))

/-! ## Metrics timing and the session closer -/

/-- Counterexample for claim C6: the reno sender computes its duration from
a clock reading taken after the closing handshake (line 161 follows lines
143-158), so with the transfer loop ending at time 1 and one further second
spent in the closing handshake, a 1000-byte transfer reports throughput
500, not the 1000 prescribed by the spec formula that stops the clock when
base reaches total_bytes. -/
theorem c6_counterexample :
    (renoTail 1000 0 1 1 [1]).1 = 500 ∧
    specThroughput 1000 0 1 = 1000 ∧
    (renoTail 1000 0 1 1 [1]).1 ≠ specThroughput 1000 0 1 := by
  refine ⟨?_, ?_, ?_⟩ <;> norm_num [renoTail, renoFinish, specThroughput]

/-- C6 (amended): the fixed-window variant reports throughput exactly as
the spec prescribes - total bytes over the time from start to ack_all_time,
the reading taken the moment the transfer loop exits, excluding the closing
handshake.  The reno and stop-and-wait variants instead divide by a
duration that extends past the closing handshake, so whenever the handshake
takes positive time on a non-trivial transfer their reported throughput is
strictly below the spec value. -/
theorem c6_throughput_timing_amended (total : Nat) (start tReach hs : ℚ)
    (delays : List ℚ) (h0 : 0 < total) (h1 : start < tReach) (h2 : 0 < hs) :
    (fixedTail total start tReach hs delays).1 = specThroughput total start tReach ∧
    (renoTail total start tReach hs delays).1 < specThroughput total start tReach ∧
    (snwTail total start tReach hs delays).1 < specThroughput total start tReach := by
  have hd1 : tReach - start > 0 := by linarith
  have hd2 : tReach + hs - start > 0 := by linarith
  have hto : (0:ℚ) < (total:ℚ) := by exact_mod_cast h0
  have hlt : (total:ℚ) / (tReach + hs - start) < (total:ℚ) / (tReach - start) :=
    div_lt_div_of_pos_left hto hd1 (by linarith)
  refine ⟨?_, ?_, ?_⟩
  · simp [fixedTail, fixedFinish, specThroughput, hd1]
  · simpa [renoTail, renoFinish, specThroughput, hd1, hd2] using hlt
  · simpa [snwTail, snwFinish, specThroughput, hd1, hd2] using hlt

theorem c6_witness :
    (fixedTail 1000 0 1 1 [1]).1 = specThroughput 1000 0 1 ∧
    (renoTail 1000 0 1 1 [1]).1 < specThroughput 1000 0 1 :=
  ⟨(c6_throughput_timing_amended 1000 0 1 1 [1] (by norm_num) (by norm_num) (by norm_num)).1,
   (c6_throughput_timing_amended 1000 0 1 1 [1] (by norm_num) (by norm_num) (by norm_num)).2.1⟩

/-- Counterexample for claim C7: for a zero-length source the reported
metrics are all zero, but channel I/O still happens - with no peer response
the session closer sends the EOF packet ten times and then the FINACK
packet, eleven datagrams in total, contradicting "no datagram is ever
sent". -/
theorem c7_counterexample :
    renoFinish 0 0 5 [] = (0, 0, 0) ∧
    (sessionCloser 0 []).length = 11 ∧
    sessionCloser 0 [] ≠ [] := by
  refine ⟨by norm_num [renoFinish], by decide, by decide⟩

/-- C7 (amended): a zero-length byte source yields throughput 0, average
delay 0 and composite score 0 in every variant's metrics computation, but
the closing handshake still performs channel I/O: whatever the peer
replies, the closer sends at least one datagram, and the last datagram it
sends is always the FINACK packet. -/
theorem c7_empty_source_amended (start tEnd : ℚ) (resp : List (Option (List Nat))) :
    renoFinish 0 start tEnd [] = (0, 0, 0) ∧
    fixedFinish 0 start tEnd [] = (0, 0, 0) ∧
    snwFinish 0 start tEnd [] = (0, 0, 0) ∧
    1 ≤ (sessionCloser 0 resp).length ∧
    (sessionCloser 0 resp).getLast? = some (make_pkt 0 finackBytes) := by
  refine ⟨?_, ?_, ?_, ?_, ?_⟩
  · by_cases h : tEnd - start > 0 <;> simp [renoFinish, h]
  · by_cases h : tEnd - start > 0 <;> simp [fixedFinish, h]
  · by_cases h : tEnd - start > 0 <;> simp [snwFinish, h]
  · simp [sessionCloser]
  · simp [sessionCloser]

theorem closeLoop_len (total : Int) : ∀ (fuel : Nat) (resp : List (Option (List Nat))),
    (closeLoop total fuel resp).1.length ≤ fuel := by
  intro fuel
  induction fuel with
  | zero => intro resp; simp [closeLoop]
  | succ n ih =>
    intro resp
    match resp with
    | [] => simpa [closeLoop] using ih []
    | some buf :: rs =>
      by_cases h : (read_ack buf).2 = "fin"
      · simp [closeLoop, h]
      · simpa [closeLoop, h] using ih rs
    | none :: rs => simpa [closeLoop] using ih rs

theorem snwEofLoop_replicate (seqId : Int) (n : Nat) :
    snwEofLoop seqId (List.replicate n none) = (n, false) := by
  induction n with
  | zero => simp [snwEofLoop]
  | succ k ih => rw [List.replicate_succ]; simp [snwEofLoop, ih]

/-- Counterexample for claim C8: the stop-and-wait EOF loop has no retry
bound - after eleven successive receive timeouts it has already sent the
EOF packet eleven times, more than the claimed bound of about 10 attempts,
and still has not terminated; and because the fin wait also never
terminates, the FINACK packet is never sent at all (snwCloser = none), so
the termination-confirmation is not sent unconditionally. -/
theorem c8_counterexample :
    snwEofLoop 0 (List.replicate 11 none) = (11, false) ∧
    snwCloser 0 (List.replicate 11 none) [] = none := by
  exact ⟨by decide, by decide⟩

/-- C8 (amended): in the reno and fixed-window variants the session closer
is bounded and unconditional: the EOF/fin loop sends at most 10 EOF packets
whatever the peer does, and the FINACK packet is always the last datagram
sent.  In the stop-and-wait variant, by contrast, the EOF loop retries
without bound while no acknowledgment with ack_id >= seq_id arrives (n
receive timeouts produce n EOF sends with the loop still running), and
FINACK is sent only after fin is observed. -/
theorem c8_session_closer_amended (total : Int) (resp : List (Option (List Nat))) (n : Nat) :
    (closeLoop total 10 resp).1.length ≤ 10 ∧
    (sessionCloser total resp).getLast? = some (make_pkt total finackBytes) ∧
    snwEofLoop 0 (List.replicate n none) = (n, false) := by
  exact ⟨closeLoop_len total 10 resp, by simp [sessionCloser], snwEofLoop_replicate 0 n⟩
